import Mathlib

/-!
Verification of the finch 2D software-rasterization library (src/finch.c,
src/blit.c) against its natural-language specification.

The C code is shallowly embedded: 32-bit pixels are naturals (< 2^32 by
construction), pixel storage is a total function from flat indices to pixels,
and all C loops become structural recursion on their (nonnegative) trip
counts.  C arithmetic conversions are modelled explicitly: comparisons
between int32_t and uint32_t operands happen after conversion of the signed
operand to uint32 (function toU32 below), exactly as the C usual arithmetic
conversions prescribe, and uint32-to-int32 stores wrap (function i32ofU32).
-/

set_option maxRecDepth 10000

/-- Pixel is uint32_t in the source (0xAARRGGBB); modelled as Nat, kept below
2^32 by construction of every producing operation. -/
abbrev Pixel := Nat

/-- Memory of a pixel buffer: flat array of pixels, modelled as a total
function from the flat index to the stored pixel. -/
abbrev Mem := Nat → Pixel

/-- Conversion of a signed value to uint32_t, as the C usual arithmetic
conversions do when an int32_t meets a uint32_t operand. -/
def toU32 (x : Int) : Nat := (x % 4294967296).toNat

/-- Conversion of a uint32 value to int32_t (implementation-defined wraparound,
as gcc/clang do). -/
def i32ofU32 (n : Nat) : Int :=
  if n % 4294967296 < 2147483648 then (n % 4294967296 : Int)
  else (n % 4294967296 : Int) - 4294967296

/-- Single store into flat pixel memory. -/
def writePix (m : Mem) (i : Nat) (c : Pixel) : Mem :=
  fun j => if j = i then c else m j

/-- GraphicsBuffer from finch.h: width, height, rowPixels (all uint32_t) and
the pixel storage.  The id, size and ownsPtr fields play no part in any
drawing operation and are omitted. -/
structure GraphicsBuffer where
  width : Nat
  height : Nat
  rowPixels : Nat
  mem : Mem

/-- RGBColor24 from finch.h: three 8-bit channels. -/
structure RGBColor24 where
  red : Nat
  green : Nat
  blue : Nat

/-- Byte i (little-endian, i in 0..3) of a 32-bit value, as reading
((uint8_t*)&x)[i] does on the library's little-endian target. -/
def pixelByte (p : Nat) (i : Nat) : Nat := p / 256 ^ i % 256

/-- LSRGBA from finch.c: stores r,g,b,a into bytes 0..3 of a 4-byte array and
reinterprets it as a uint32_t, so on the little-endian target the first
argument lands in the least-significant byte.  The mod 256 models the
uint8_t parameter type. -/
def LSRGBA (r g b a : Nat) : Pixel :=
  r % 256 + 256 * (g % 256) + 65536 * (b % 256) + 16777216 * (a % 256)

/-- AsPixel from finch.c. -/
def AsPixel (c : RGBColor24) : Pixel := LSRGBA c.red c.green c.blue 255

/-- AsPixelWithAlpha from finch.c. -/
def AsPixelWithAlpha (c : RGBColor24) (alpha : Nat) : Pixel :=
  LSRGBA c.red c.green c.blue alpha

/-- MakeColor from blit.c: 0xFF000000 | r << 16 | g << 8 | b.  The mod 256
models the uint8_t parameter type. -/
def MakeColor (r g b : Nat) : Pixel :=
  0xFF000000 ||| ((r % 256) <<< 16) ||| ((g % 256) <<< 8) ||| (b % 256)

/-- MakeColorWithAlpha from blit.c: a << 24 | r << 16 | g << 8 | b. -/
def MakeColorWithAlpha (r g b a : Nat) : Pixel :=
  ((a % 256) <<< 24) ||| ((r % 256) <<< 16) ||| ((g % 256) <<< 8) ||| (b % 256)

/-- Color2Values from blit.c: fills components[0..3] with red, green, blue,
alpha by repeated shift and mask; returned here as the quadruple
(components[0], components[1], components[2], components[3]). -/
def Color2Values (color : Nat) : Nat × Nat × Nat × Nat :=
  let tmp0 := color
  let c2 := tmp0 &&& 255
  let tmp1 := tmp0 >>> 8
  let c1 := tmp1 &&& 255
  let tmp2 := tmp1 >>> 8
  let c0 := tmp2 &&& 255
  let tmp3 := tmp2 >>> 8
  let c3 := tmp3 &&& 255
  (c0, c1, c2, c3)

/-- PixelComponents from finch.c: (*rp, *gp, *bp) = ((p>>16)&0xff, (p>>8)&0xff,
(p>>0)&0xff). -/
def PixelComponents (pixel : Nat) : Nat × Nat × Nat :=
  ((pixel >>> 16) &&& 255, (pixel >>> 8) &&& 255, (pixel >>> 0) &&& 255)

/-- Or of a shifted value with a value fitting entirely below the shift is
plain addition. -/
theorem two_pow_mul_or_eq_add {n : Nat} (a b : Nat) (hb : b < 2 ^ n) :
    (2 ^ n * a) ||| b = 2 ^ n * a + b := by
  apply Nat.eq_of_testBit_eq
  intro i
  rw [Nat.testBit_or, Nat.testBit_mul_pow_two_add a hb i]
  rw [show 2 ^ n * a = a <<< n from by rw [Nat.shiftLeft_eq, Nat.mul_comm]]
  rw [Nat.testBit_shiftLeft]
  by_cases h : i < n
  · simp [h, Nat.not_le.mpr h]
  · have hge := Nat.le_of_not_lt h
    have hbf : b.testBit i = false :=
      Nat.testBit_lt_two_pow (lt_of_lt_of_le hb (Nat.pow_le_pow_right (by norm_num) hge))
    simp [h, hge, hbf]

/-- Arithmetic characterization of MakeColorWithAlpha for in-range channels. -/
theorem MakeColorWithAlpha_eq (r g b a : Nat) (hr : r < 256) (hg : g < 256)
    (hb : b < 256) (ha : a < 256) :
    MakeColorWithAlpha r g b a = 16777216 * a + 65536 * r + 256 * g + b := by
  unfold MakeColorWithAlpha
  rw [Nat.mod_eq_of_lt hr, Nat.mod_eq_of_lt hg, Nat.mod_eq_of_lt hb, Nat.mod_eq_of_lt ha]
  rw [Nat.shiftLeft_eq, Nat.shiftLeft_eq, Nat.shiftLeft_eq]
  rw [Nat.mul_comm a, Nat.mul_comm r, Nat.mul_comm g]
  have h1 : (2 ^ 24 * a) ||| (2 ^ 16 * r) = 2 ^ 24 * a + 2 ^ 16 * r := by
    apply two_pow_mul_or_eq_add
    have : (65536 : Nat) * r < 16777216 := by omega
    norm_num
    omega
  rw [h1]
  have h2 : (2 ^ 24 * a + 2 ^ 16 * r) ||| (2 ^ 8 * g) =
      2 ^ 24 * a + 2 ^ 16 * r + 2 ^ 8 * g := by
    rw [show 2 ^ 24 * a + 2 ^ 16 * r = 2 ^ 16 * (2 ^ 8 * a + r) from by ring]
    rw [two_pow_mul_or_eq_add _ _ (show 2 ^ 8 * g < 2 ^ 16 by norm_num; omega)]
  rw [h2]
  have h3 : (2 ^ 24 * a + 2 ^ 16 * r + 2 ^ 8 * g) ||| b =
      2 ^ 24 * a + 2 ^ 16 * r + 2 ^ 8 * g + b := by
    rw [show 2 ^ 24 * a + 2 ^ 16 * r + 2 ^ 8 * g =
        2 ^ 8 * (2 ^ 16 * a + 2 ^ 8 * r + g) from by ring]
    rw [two_pow_mul_or_eq_add _ _ (show b < 2 ^ 8 from hb)]
  rw [h3]
  ring

/-- Arithmetic characterization of MakeColor for in-range channels. -/
theorem MakeColor_eq (r g b : Nat) (hr : r < 256) (hg : g < 256) (hb : b < 256) :
    MakeColor r g b = 16777216 * 255 + 65536 * r + 256 * g + b := by
  have h : MakeColor r g b = MakeColorWithAlpha r g b 255 := by
    unfold MakeColor MakeColorWithAlpha
    norm_num [Nat.shiftLeft_eq]
  rw [h, MakeColorWithAlpha_eq r g b 255 hr hg hb (by norm_num)]

/-- Mask with 0xff is mod 256. -/
theorem and_255_eq_mod (x : Nat) : x &&& 255 = x % 256 := by
  have h := Nat.and_pow_two_sub_one_eq_mod x 8
  norm_num at h
  exact h

/-- C9: the pixel format round-trips exactly: PixelComponents inverts
MakeColor on the r,g,b channels, and Color2Values inverts MakeColorWithAlpha,
with components[0]=r, components[1]=g, components[2]=b, components[3]=a. -/
theorem color_roundtrip (r g b a : Nat) (hr : r < 256) (hg : g < 256)
    (hb : b < 256) (ha : a < 256) :
    PixelComponents (MakeColor r g b) = (r, g, b) ∧
    Color2Values (MakeColorWithAlpha r g b a) = (r, g, b, a) := by
  constructor
  · unfold PixelComponents
    rw [MakeColor_eq r g b hr hg hb]
    rw [Nat.shiftRight_eq_div_pow, Nat.shiftRight_eq_div_pow, Nat.shiftRight_eq_div_pow]
    rw [and_255_eq_mod, and_255_eq_mod, and_255_eq_mod]
    norm_num
    constructor
    · omega
    constructor
    · omega
    · omega
  · unfold Color2Values
    rw [MakeColorWithAlpha_eq r g b a hr hg hb ha]
    simp only [Nat.shiftRight_eq_div_pow, and_255_eq_mod]
    norm_num
    refine ⟨by omega, by omega, by omega, by omega⟩

/-- Witness for C9 at a concrete channel quadruple. -/
theorem color_roundtrip_witness :
    PixelComponents (MakeColor 17 34 51) = (17, 34, 51) ∧
    Color2Values (MakeColorWithAlpha 17 34 51 68) = (17, 34, 51, 68) :=
  color_roundtrip 17 34 51 68 (by norm_num) (by norm_num) (by norm_num) (by norm_num)

/-- C8: LSRGBA stores its first argument in the least-significant byte, so it
agrees with MakeColorWithAlpha with red and blue swapped; PixelComponents of
an LSRGBA pixel therefore yields (b, g, r), and AsPixel / AsPixelWithAlpha
inherit the same swap.  The final conjunct records that the unswapped
identity fails at a concrete input. -/
theorem LSRGBA_swaps_red_blue (r g b a : Nat) (hr : r < 256) (hg : g < 256)
    (hb : b < 256) (ha : a < 256) :
    (LSRGBA r g b a = MakeColorWithAlpha b g r a ∧
     PixelComponents (LSRGBA r g b a) = (b, g, r) ∧
     AsPixel ⟨r, g, b⟩ = MakeColorWithAlpha b g r 255 ∧
     AsPixelWithAlpha ⟨r, g, b⟩ a = MakeColorWithAlpha b g r a) ∧
    LSRGBA 1 2 3 4 ≠ MakeColorWithAlpha 1 2 3 4 := by
  have hmain : ∀ r g b a : Nat, r < 256 → g < 256 → b < 256 → a < 256 →
      LSRGBA r g b a = MakeColorWithAlpha b g r a := by
    intro r g b a hr hg hb ha
    unfold LSRGBA
    rw [MakeColorWithAlpha_eq b g r a hb hg hr ha]
    rw [Nat.mod_eq_of_lt hr, Nat.mod_eq_of_lt hg, Nat.mod_eq_of_lt hb, Nat.mod_eq_of_lt ha]
    ring
  refine ⟨⟨hmain r g b a hr hg hb ha, ?_, ?_, ?_⟩, ?_⟩
  · unfold PixelComponents LSRGBA
    rw [Nat.mod_eq_of_lt hr, Nat.mod_eq_of_lt hg, Nat.mod_eq_of_lt hb, Nat.mod_eq_of_lt ha]
    rw [Nat.shiftRight_eq_div_pow, Nat.shiftRight_eq_div_pow, Nat.shiftRight_eq_div_pow]
    rw [and_255_eq_mod, and_255_eq_mod, and_255_eq_mod]
    norm_num
    refine ⟨by omega, by omega, by omega⟩
  · exact hmain r g b 255 hr hg hb (by norm_num)
  · exact hmain r g b a hr hg hb ha
  · decide

/-- Witness for C8 at a concrete channel quadruple. -/
theorem LSRGBA_swaps_red_blue_witness :
    (LSRGBA 10 20 30 40 = MakeColorWithAlpha 30 20 10 40 ∧
     PixelComponents (LSRGBA 10 20 30 40) = (30, 20, 10) ∧
     AsPixel ⟨10, 20, 30⟩ = MakeColorWithAlpha 30 20 10 255 ∧
     AsPixelWithAlpha ⟨10, 20, 30⟩ 40 = MakeColorWithAlpha 30 20 10 40) ∧
    LSRGBA 1 2 3 4 ≠ MakeColorWithAlpha 1 2 3 4 :=
  LSRGBA_swaps_red_blue 10 20 30 40 (by norm_num) (by norm_num) (by norm_num) (by norm_num)

/-- Addition in uint32_t arithmetic. -/
def uadd32 (a b : Nat) : Nat := (a + b) % 4294967296

/-- Subtraction in uint32_t arithmetic (wraps modulo 2^32). -/
def usub32 (a b : Nat) : Nat :=
  (a % 4294967296 + (4294967296 - b % 4294967296)) % 4294967296

/-- Multiplication in uint32_t arithmetic. -/
def umul32 (a b : Nat) : Nat := a * b % 4294967296

/-- LSCompositeValues from finch.c: (m*(a-b) + 255*b) / 255 computed entirely
in uint32_t arithmetic, so a-b wraps modulo 2^32 whenever a < b. -/
def LSCompositeValues (a b m : Nat) : Nat :=
  uadd32 (umul32 m (usub32 a b)) (umul32 255 b) / 255

/-- LSCompositePixels from finch.c: composites bytes 0..2 of the source over
the destination using source byte 3 (the alpha on the little-endian layout)
as the mask, and keeps destination byte 3.  Each channel result is stored
through a uint8_t, hence the mod 256. -/
def LSCompositePixels (sp dp : Nat) : Nat :=
  let mask := pixelByte sp 3
  let np0 := LSCompositeValues (pixelByte sp 0) (pixelByte dp 0) mask % 256
  let np1 := LSCompositeValues (pixelByte sp 1) (pixelByte dp 1) mask % 256
  let np2 := LSCompositeValues (pixelByte sp 2) (pixelByte dp 2) mask % 256
  let np3 := pixelByte dp 3
  np0 + 256 * np1 + 65536 * np2 + 16777216 * np3

/-- LSCompositePixelsOpaque from finch.c: returns the source pixel. -/
def LSCompositePixelsOpaque (sp dp : Pixel) : Pixel := sp

/-- The uint32 wraparound in LSCompositeValues cancels: for 8-bit channel
values the function computes the exact integer formula
(m*a + (255-m)*b) / 255 with truncating division. -/
theorem LSCompositeValues_eq (a b m : Nat) (ha : a ≤ 255) (hb : b ≤ 255)
    (hm : m ≤ 255) :
    LSCompositeValues a b m = (m * a + (255 - m) * b) / 255 := by
  unfold LSCompositeValues uadd32 usub32 umul32
  have hma : (255 : Nat) * b % 4294967296 = 255 * b := Nat.mod_eq_of_lt (by omega)
  rw [Nat.mod_eq_of_lt (show a < 4294967296 by omega),
      Nat.mod_eq_of_lt (show b < 4294967296 by omega), hma]
  have hcomb : (255 - m) * b + m * b = 255 * b := by
    rw [← Nat.add_mul, Nat.sub_add_cancel hm]
  rcases le_or_lt b a with hab | hab
  · -- no wraparound: a - b is small and nonnegative
    have hsub : (a + (4294967296 - b)) % 4294967296 = a - b := by omega
    rw [hsub]
    have hm1 : m * (a - b) % 4294967296 = m * (a - b) := by
      apply Nat.mod_eq_of_lt
      have : m * (a - b) ≤ 255 * 255 := Nat.mul_le_mul hm (by omega)
      omega
    rw [hm1]
    have hsplit : m * (a - b) + m * b = m * a := by
      rw [← Nat.mul_add, Nat.sub_add_cancel hab]
    have hfit : (m * (a - b) + 255 * b) % 4294967296 = m * (a - b) + 255 * b := by
      apply Nat.mod_eq_of_lt
      have h1 : m * (a - b) ≤ 255 * 255 := Nat.mul_le_mul hm (by omega)
      omega
    rw [hfit]
    have : m * (a - b) + 255 * b = m * a + (255 - m) * b := by omega
    rw [this]
  · -- wraparound: a - b computed in uint32 becomes 2^32 - (b - a)
    have hsub : (a + (4294967296 - b)) % 4294967296 = 4294967296 - (b - a) := by omega
    rw [hsub]
    rcases Nat.eq_zero_or_pos m with hm0 | hmpos
    · subst hm0
      simp
      omega
    · set d := b - a with hd
      have hdpos : 1 ≤ d := by omega
      have hdle : d ≤ 255 := by omega
      have hmd : m * d ≤ 255 * 255 := Nat.mul_le_mul hm hdle
      have hmdpos : 1 ≤ m * d := Nat.mul_le_mul hmpos hdpos
      have hsplit : m * (4294967296 - d) + m * d = 4294967296 * m := by
        rw [← Nat.mul_add, Nat.sub_add_cancel (by omega), Nat.mul_comm]
      have hm2 : m * (4294967296 - d) % 4294967296 = 4294967296 - m * d := by omega
      rw [hm2]
      have hmdb : m * d ≤ 255 * b := by
        calc m * d ≤ 255 * d := Nat.mul_le_mul_right d hm
          _ ≤ 255 * b := Nat.mul_le_mul_left 255 (by omega)
      have hfit : (4294967296 - m * d + 255 * b) % 4294967296 = 255 * b - m * d := by
        omega
      rw [hfit]
      have hsplit2 : m * a + m * d = m * b := by
        rw [← Nat.mul_add]
        congr 1
        omega
      have : 255 * b - m * d = m * a + (255 - m) * b := by omega
      rw [this]

/-- Channel composites of 8-bit values stay 8-bit. -/
theorem LSCompositeValues_le (a b m : Nat) (ha : a ≤ 255) (hb : b ≤ 255)
    (hm : m ≤ 255) : LSCompositeValues a b m ≤ 255 := by
  rw [LSCompositeValues_eq a b m ha hb hm]
  have h1 : m * a + (255 - m) * b ≤ 255 * 255 := by
    have h2 : m * a ≤ m * 255 := Nat.mul_le_mul_left m ha
    have h3 : (255 - m) * b ≤ (255 - m) * 255 := Nat.mul_le_mul_left (255 - m) hb
    have h4 : m * 255 + (255 - m) * 255 = 255 * 255 := by omega
    omega
  calc (m * a + (255 - m) * b) / 255 ≤ 255 * 255 / 255 := Nat.div_le_div_right h1
    _ = 255 := by norm_num

/-- C6: for 8-bit channel values, LSCompositeValues equals the exact integer
formula (m*(s-d) + 255*d) / 255 with truncating division over the integers,
equivalently (m*s + (255-m)*d) / 255, despite the uint32 wraparound of s-d
when s < d. -/
theorem LSCompositeValues_exact (s d m : Nat) (hs : s ≤ 255) (hd : d ≤ 255)
    (hm : m ≤ 255) :
    (LSCompositeValues s d m : Int) =
      Int.tdiv ((m : Int) * ((s : Int) - (d : Int)) + 255 * (d : Int)) 255 ∧
    LSCompositeValues s d m = (m * s + (255 - m) * d) / 255 := by
  have hnat := LSCompositeValues_eq s d m hs hd hm
  refine ⟨?_, hnat⟩
  have hnum : (m : Int) * ((s : Int) - (d : Int)) + 255 * (d : Int) =
      ((m * s + (255 - m) * d : Nat) : Int) := by
    push_cast [Nat.cast_sub hm]
    ring
  rw [hnum, hnat]
  exact Int.ofNat_tdiv _ _

/-- Witness for C6 at a wrapping input (s < d, so s-d wraps in uint32). -/
theorem LSCompositeValues_exact_witness :
    (LSCompositeValues 10 200 37 : Int) =
      Int.tdiv ((37 : Int) * ((10 : Int) - (200 : Int)) + 255 * (200 : Int)) 255 ∧
    LSCompositeValues 10 200 37 = (37 * 10 + (255 - 37) * 200) / 255 :=
  LSCompositeValues_exact 10 200 37 (by norm_num) (by norm_num) (by norm_num)

/-- Bytes are 8-bit. -/
theorem pixelByte_lt (p i : Nat) : pixelByte p i < 256 :=
  Nat.mod_lt _ (by norm_num)

/-- Compositing with mask 0 returns the destination channel. -/
theorem LSCompositeValues_zero (a b : Nat) (ha : a ≤ 255) (hb : b ≤ 255) :
    LSCompositeValues a b 0 = b := by
  rw [LSCompositeValues_eq a b 0 ha hb (by norm_num)]
  omega

/-- Compositing with mask 255 returns the source channel. -/
theorem LSCompositeValues_full (a b : Nat) (ha : a ≤ 255) (hb : b ≤ 255) :
    LSCompositeValues a b 255 = a := by
  rw [LSCompositeValues_eq a b 255 ha hb (by norm_num)]
  omega

/-- A 32-bit value is the weighted sum of its four bytes. -/
theorem bytes_recompose (p : Nat) (hp : p < 4294967296) :
    pixelByte p 0 + 256 * pixelByte p 1 + 65536 * pixelByte p 2 +
      16777216 * pixelByte p 3 = p := by
  unfold pixelByte
  norm_num
  omega

/-- Byte 3 of a little-endian byte assembly is its top component. -/
theorem byte3_of_sum (x0 x1 x2 x3 : Nat) (h0 : x0 < 256) (h1 : x1 < 256)
    (h2 : x2 < 256) (h3 : x3 < 256) :
    pixelByte (x0 + 256 * x1 + 65536 * x2 + 16777216 * x3) 3 = x3 := by
  unfold pixelByte
  norm_num
  omega

/-- C7: LSCompositePixels with source alpha 0 returns the destination pixel
unchanged; with source alpha 255 it returns the source R,G,B bytes combined
with the destination alpha byte; and for every source the result keeps the
destination alpha byte. -/
theorem LSCompositePixels_spec (sp dp : Nat) (hsp : sp < 4294967296)
    (hdp : dp < 4294967296) :
    (pixelByte sp 3 = 0 → LSCompositePixels sp dp = dp) ∧
    (pixelByte sp 3 = 255 →
      LSCompositePixels sp dp = dp / 16777216 * 16777216 + sp % 16777216) ∧
    pixelByte (LSCompositePixels sp dp) 3 = pixelByte dp 3 := by
  have hs0 : pixelByte sp 0 ≤ 255 := Nat.le_of_lt_succ (pixelByte_lt _ _)
  have hs1 : pixelByte sp 1 ≤ 255 := Nat.le_of_lt_succ (pixelByte_lt _ _)
  have hs2 : pixelByte sp 2 ≤ 255 := Nat.le_of_lt_succ (pixelByte_lt _ _)
  have hd0 : pixelByte dp 0 ≤ 255 := Nat.le_of_lt_succ (pixelByte_lt _ _)
  have hd1 : pixelByte dp 1 ≤ 255 := Nat.le_of_lt_succ (pixelByte_lt _ _)
  have hd2 : pixelByte dp 2 ≤ 255 := Nat.le_of_lt_succ (pixelByte_lt _ _)
  refine ⟨?_, ?_, ?_⟩
  · intro hm
    simp only [LSCompositePixels, hm]
    rw [LSCompositeValues_zero _ _ hs0 hd0, LSCompositeValues_zero _ _ hs1 hd1,
        LSCompositeValues_zero _ _ hs2 hd2]
    rw [Nat.mod_eq_of_lt (pixelByte_lt dp 0), Nat.mod_eq_of_lt (pixelByte_lt dp 1),
        Nat.mod_eq_of_lt (pixelByte_lt dp 2)]
    exact bytes_recompose dp hdp
  · intro hm
    simp only [LSCompositePixels, hm]
    rw [LSCompositeValues_full _ _ hs0 hd0, LSCompositeValues_full _ _ hs1 hd1,
        LSCompositeValues_full _ _ hs2 hd2]
    rw [Nat.mod_eq_of_lt (pixelByte_lt sp 0), Nat.mod_eq_of_lt (pixelByte_lt sp 1),
        Nat.mod_eq_of_lt (pixelByte_lt sp 2)]
    unfold pixelByte
    norm_num
    omega
  · simp only [LSCompositePixels]
    exact byte3_of_sum _ _ _ _ (Nat.mod_lt _ (by norm_num)) (Nat.mod_lt _ (by norm_num))
      (Nat.mod_lt _ (by norm_num)) (pixelByte_lt dp 3)

/-- Witness for C7: a transparent source leaves the destination unchanged, and
an opaque source keeps the destination alpha, at concrete pixels. -/
theorem LSCompositePixels_spec_witness :
    (pixelByte 0x00FF8040 3 = 0 → LSCompositePixels 0x00FF8040 0xDEADBEEF = 0xDEADBEEF) ∧
    (pixelByte 0x00FF8040 3 = 255 →
      LSCompositePixels 0x00FF8040 0xDEADBEEF =
        0xDEADBEEF / 16777216 * 16777216 + 0x00FF8040 % 16777216) ∧
    pixelByte (LSCompositePixels 0x00FF8040 0xDEADBEEF) 3 = pixelByte 0xDEADBEEF 3 :=
  LSCompositePixels_spec 0x00FF8040 0xDEADBEEF (by norm_num) (by norm_num)

/-- LSMin from finch.h. -/
def LSMin (a b : Int) : Int := if a < b then a else b

/-- LSMax from finch.h. -/
def LSMax (a b : Int) : Int := if a > b then a else b

/-- LSRect from finch.h: int32_t bounds. -/
structure LSRect where
  left : Int
  top : Int
  right : Int
  bottom : Int
deriving DecidableEq

/-- LSPointInRect from finch.c: right/bottom-exclusive membership test. -/
def LSPointInRect (x y : Int) (r : LSRect) : Bool :=
  if x ≥ r.left ∧ x < r.right ∧ y ≥ r.top ∧ y < r.bottom then true else false

/-- IntersectRects from finch.c: tests the four corners of r1 against r2 plus
only the top-left corner of r2 against r1; on success stores the max/min
bounds.  The C out-parameter plus boolean result is modelled as an Option
(none when the function returns false and leaves sect undefined). -/
def IntersectRects (r1 r2 : LSRect) : Option LSRect :=
  if LSPointInRect r1.left r1.top r2 || LSPointInRect r1.left r1.bottom r2 ||
     LSPointInRect r1.right r1.top r2 || LSPointInRect r1.right r1.bottom r2 ||
     LSPointInRect r2.left r2.top r1 then
    some ⟨LSMax r1.left r2.left, LSMax r1.top r2.top,
          LSMin r1.right r2.right, LSMin r1.bottom r2.bottom⟩
  else none

/-- Counterexample for C5: the bottom-right corner (50,20) of r2 = {5,0,50,20}
lies inside r1 = {0,10,100,30}, yet IntersectRects reports no intersection,
because no corner of r1 is in r2 and only the top-left corner of r2 is ever
tested against r1. -/
theorem IntersectRects_misses_corner :
    LSPointInRect (LSRect.mk 5 0 50 20).right (LSRect.mk 5 0 50 20).bottom
      ⟨0, 10, 100, 30⟩ = true ∧
    IntersectRects ⟨0, 10, 100, 30⟩ ⟨5, 0, 50, 20⟩ = none := by decide

/-- C5 (amended): IntersectRects returns true iff some corner of r1 lies in r2
or the top-left corner of r2 lies in r1 (right/bottom exclusive); on success
it stores the max of lefts and tops and the min of rights and bottoms, and it
decides the two concrete instances of the claim as stated there. -/
theorem IntersectRects_corner_semantics (r1 r2 : LSRect) :
    ((IntersectRects r1 r2).isSome = true ↔
      ((r2.left ≤ r1.left ∧ r1.left < r2.right ∧ r2.top ≤ r1.top ∧ r1.top < r2.bottom) ∨
       (r2.left ≤ r1.left ∧ r1.left < r2.right ∧ r2.top ≤ r1.bottom ∧ r1.bottom < r2.bottom) ∨
       (r2.left ≤ r1.right ∧ r1.right < r2.right ∧ r2.top ≤ r1.top ∧ r1.top < r2.bottom) ∨
       (r2.left ≤ r1.right ∧ r1.right < r2.right ∧ r2.top ≤ r1.bottom ∧ r1.bottom < r2.bottom) ∨
       (r1.left ≤ r2.left ∧ r2.left < r1.right ∧ r1.top ≤ r2.top ∧ r2.top < r1.bottom))) ∧
    (∀ s, IntersectRects r1 r2 = some s →
      s = ⟨LSMax r1.left r2.left, LSMax r1.top r2.top,
           LSMin r1.right r2.right, LSMin r1.bottom r2.bottom⟩) ∧
    IntersectRects ⟨40, 75, 100, 100⟩ ⟨20, 85, 60, 105⟩ = some ⟨40, 85, 60, 100⟩ ∧
    IntersectRects ⟨10, 10, 20, 20⟩ ⟨30, 30, 40, 40⟩ = none := by
  refine ⟨?_, ?_, by decide, by decide⟩
  · simp only [IntersectRects, LSPointInRect]
    split
    case isTrue h =>
      simp at h ⊢
      omega
    case isFalse h =>
      simp at h ⊢
      omega
  · intro s hs
    by_cases h : (LSPointInRect r1.left r1.top r2 || LSPointInRect r1.left r1.bottom r2 ||
        LSPointInRect r1.right r1.top r2 || LSPointInRect r1.right r1.bottom r2 ||
        LSPointInRect r2.left r2.top r1) = true
    · unfold IntersectRects at hs
      rw [if_pos h] at hs
      exact (Option.some_inj.mp hs).symm
    · unfold IntersectRects at hs
      rw [if_neg h] at hs
      cases hs

/-- Witness for C5 at the two concrete rectangles of the claim. -/
theorem IntersectRects_corner_semantics_witness :
    IntersectRects ⟨40, 75, 100, 100⟩ ⟨20, 85, 60, 105⟩ = some ⟨40, 85, 60, 100⟩ :=
  (IntersectRects_corner_semantics ⟨40, 75, 100, 100⟩ ⟨20, 85, 60, 105⟩).2.2.1

/-- GetPixel from finch.c: 0 outside the buffer, otherwise the stored pixel at
row * rowPixels + column.  The (uint32_t)x casts of the source are explicit. -/
def GetPixel (buf : GraphicsBuffer) (x y : Int) : Pixel :=
  if x < 0 ∨ toU32 x ≥ buf.width ∨ y < 0 ∨ toU32 y ≥ buf.height then 0
  else buf.mem (y.toNat * buf.rowPixels + x.toNat)

/-- Inner loop of FillRectOpaque: while(hCount--) *pix++ = color. -/
def fillRun (m : Mem) (color : Pixel) (base : Nat) : Nat → Mem
  | 0 => m
  | n + 1 => fillRun (writePix m base color) color (base + 1) n

/-- Outer loop of FillRectOpaque: one run per row, the row pointer advancing
by rowPixels. -/
def fillRows (m : Mem) (color : Pixel) (base stride w : Nat) : Nat → Mem
  | 0 => m
  | n + 1 => fillRows (fillRun m color base w) color (base + stride) stride w n

/-- FillRectOpaque from finch.c.  The screen test compares the int32_t bounds
against the uint32_t buffer extents, which in C converts the signed operand
to uint32 (toU32); the subsequent left/top clamps and the right/bottom clamps
(also unsigned comparisons) mirror the source line by line. -/
def FillRectOpaque (buf : GraphicsBuffer) (color : Pixel)
    (left top right bottom : Int) : GraphicsBuffer :=
  let l0 := if left > right then right else left
  let r0 := if left > right then left else right
  let t0 := if top > bottom then bottom else top
  let b0 := if top > bottom then top else bottom
  if 0 ≤ b0 ∧ toU32 t0 < buf.height ∧ 0 ≤ r0 ∧ toU32 l0 < buf.width then
    let l1 := if l0 < 0 then 0 else l0
    let t1 := if t0 < 0 then 0 else t0
    let r1 := if toU32 r0 > buf.width then i32ofU32 buf.width else r0
    let b1 := if toU32 b0 > buf.height then i32ofU32 buf.height else b0
    let h := b1 - t1
    let w := r1 - l1
    { buf with
      mem := fillRows buf.mem color (t1.toNat * buf.rowPixels + l1.toNat)
        buf.rowPixels w.toNat h.toNat }
  else buf

/-- ClearBuffer from finch.c: note the source passes buffer->height as the
right bound and buffer->width as the bottom bound of FillRectOpaque, whose
parameter order is (left, top, right, bottom). -/
def ClearBuffer (buf : GraphicsBuffer) (color : Pixel) : GraphicsBuffer :=
  FillRectOpaque buf color 0 0 (i32ofU32 buf.height) (i32ofU32 buf.width)

/-- Loop of DrawVertLine: while(count--) composite then advance by rowPixels. -/
def compositeRunStride (color : Pixel) (m : Mem) (base stride : Nat) : Nat → Mem
  | 0 => m
  | n + 1 =>
    compositeRunStride color (writePix m base (LSCompositePixels color (m base)))
      (base + stride) stride n

/-- DrawVertLine from finch.c.  In the screen test, x >= 0 is checked before
the unsigned x < width comparison, but y1 < height compares the possibly
negative y1 against the uint32_t height without a cast, again via toU32. -/
def DrawVertLine (buf : GraphicsBuffer) (color : Pixel) (y1 y2 x : Int) :
    GraphicsBuffer :=
  if y1 ≤ y2 ∧ 0 ≤ x ∧ toU32 x < buf.width ∧ 0 ≤ y2 ∧ toU32 y1 < buf.height then
    let y1c := if y1 < 0 then 0 else y1
    let y2c := if toU32 y2 ≥ buf.height then ((buf.height - 1 : Nat) : Int) else y2
    let count := y2c - y1c + 1
    { buf with
      mem := compositeRunStride color buf.mem
        (y1c.toNat * buf.rowPixels + x.toNat) buf.rowPixels count.toNat }
  else buf

/-- Inner loop of BlitGraphBuffer: straight pixel copy. -/
def copyRun (srcM : Mem) (m : Mem) (srcBase dstBase : Nat) : Nat → Mem
  | 0 => m
  | n + 1 =>
    copyRun srcM (writePix m dstBase (srcM srcBase)) (srcBase + 1) (dstBase + 1) n

/-- Outer loop of BlitGraphBuffer: row by row, each buffer advancing by its
own stride. -/
def copyRows (srcM : Mem) (m : Mem) (srcBase dstBase srcStride dstStride w : Nat) :
    Nat → Mem
  | 0 => m
  | n + 1 =>
    copyRows srcM (copyRun srcM m srcBase dstBase w) (srcBase + srcStride)
      (dstBase + dstStride) srcStride dstStride w n

/-- BlitGraphBuffer from finch.c (the opaque blit).  The initial rejection
test compares the int32_t destination offsets against the uint32_t
destination extents with no cast, hence via toU32; clip.right/clip.bottom are
computed in unsigned arithmetic and stored back into int32_t fields
(i32ofU32), then clamped by unsigned comparison, as in the source. -/
def BlitGraphBuffer (src dst : GraphicsBuffer) (xDestLoc yDestLoc : Int) :
    GraphicsBuffer :=
  if toU32 xDestLoc ≥ dst.width ∨ toU32 yDestLoc ≥ dst.height then dst
  else
    let srcOff := (if xDestLoc < 0 then (-xDestLoc).toNat else 0) +
                  (if yDestLoc < 0 then (-yDestLoc).toNat * src.rowPixels else 0)
    let clipLeft := if xDestLoc < 0 then 0 else xDestLoc
    let clipTop := if yDestLoc < 0 then 0 else yDestLoc
    let cr0 := i32ofU32 (toU32 xDestLoc + src.width)
    let clipRight := if toU32 cr0 > dst.width then i32ofU32 dst.width else cr0
    let cb0 := i32ofU32 (toU32 yDestLoc + src.height)
    let clipBottom := if toU32 cb0 > dst.height then i32ofU32 dst.height else cb0
    if clipRight ≤ 0 ∨ clipBottom ≤ 0 then dst
    else
      let rows := clipBottom - clipTop
      let cols := clipRight - clipLeft
      { dst with
        mem := copyRows src.mem dst.mem srcOff
          (clipTop.toNat * dst.rowPixels + clipLeft.toNat)
          src.rowPixels dst.rowPixels cols.toNat rows.toNat }

/-- Inner loop of BlitGraphBufferComposite: per-pixel alpha compositing. -/
def compositeCopyRun (srcM : Mem) (m : Mem) (srcBase dstBase : Nat) : Nat → Mem
  | 0 => m
  | n + 1 =>
    compositeCopyRun srcM
      (writePix m dstBase (LSCompositePixels (srcM srcBase) (m dstBase)))
      (srcBase + 1) (dstBase + 1) n

/-- Outer loop of BlitGraphBufferComposite. -/
def compositeCopyRows (srcM : Mem)
    (m : Mem) (srcBase dstBase srcStride dstStride w : Nat) : Nat → Mem
  | 0 => m
  | n + 1 =>
    compositeCopyRows srcM (compositeCopyRun srcM m srcBase dstBase w)
      (srcBase + srcStride) (dstBase + dstStride) srcStride dstStride w n

/-- BlitGraphBufferComposite from finch.c: unlike the opaque blit, the
rejection tests cast the uint32_t extents to int32_t, and an extra guard
rejects sources fully left of or above the destination. -/
def BlitGraphBufferComposite (src dst : GraphicsBuffer) (xDestLoc yDestLoc : Int) :
    GraphicsBuffer :=
  if xDestLoc ≥ i32ofU32 dst.width ∨ yDestLoc ≥ i32ofU32 dst.height then dst
  else if yDestLoc ≤ -(i32ofU32 src.height) ∨ xDestLoc ≤ -(i32ofU32 src.width) then dst
  else
    let srcOff := (if xDestLoc < 0 then (-xDestLoc).toNat else 0) +
                  (if yDestLoc < 0 then (-yDestLoc).toNat * src.rowPixels else 0)
    let clipLeft := if xDestLoc < 0 then 0 else xDestLoc
    let clipTop := if yDestLoc < 0 then 0 else yDestLoc
    let cr0 := i32ofU32 (toU32 xDestLoc + src.width)
    let clipRight := if toU32 cr0 > dst.width then i32ofU32 dst.width else cr0
    let cb0 := i32ofU32 (toU32 yDestLoc + src.height)
    let clipBottom := if toU32 cb0 > dst.height then i32ofU32 dst.height else cb0
    if clipRight ≤ 0 ∨ clipBottom ≤ 0 then dst
    else
      let rows := clipBottom - clipTop
      let cols := clipRight - clipLeft
      { dst with
        mem := compositeCopyRows src.mem dst.mem srcOff
          (clipTop.toNat * dst.rowPixels + clipLeft.toNat)
          src.rowPixels dst.rowPixels cols.toNat rows.toNat }

/-- An 80x60 buffer (rowPixels 80) holding zero-initialized storage, as
NewGraphBuffer allocates. -/
def zeroBuf80x60 : GraphicsBuffer := ⟨80, 60, 80, fun _ => 0⟩

/-- An 8x6 zero-initialized buffer. -/
def zeroBuf8x6 : GraphicsBuffer := ⟨8, 6, 8, fun _ => 0⟩

/-- A 2x2 source buffer whose pixels are opaque with distinct blue channels:
0xFF000001, 0xFF000002 on the top row, 0xFF000003, 0xFF000004 below. -/
def srcBuf2x2 : GraphicsBuffer := ⟨2, 2, 2, fun j => 4278190080 + j + 1⟩

/-- A 4x4 zero-initialized destination buffer. -/
def dstBuf4x4 : GraphicsBuffer := ⟨4, 4, 4, fun _ => 0⟩

/-- A pixel of the inner fill run is the color inside the run and the old
value outside it. -/
theorem fillRun_spec (c : Pixel) (n : Nat) : ∀ (m : Mem) (base j : Nat),
    fillRun m c base n j = if base ≤ j ∧ j < base + n then c else m j := by
  induction n with
  | zero =>
    intro m base j
    rw [fillRun, if_neg (by omega)]
  | succ k ih =>
    intro m base j
    rw [fillRun, ih]
    by_cases h1 : base + 1 ≤ j ∧ j < base + 1 + k
    · rw [if_pos h1, if_pos (by omega)]
    · rw [if_neg h1]
      unfold writePix
      by_cases hj : j = base
      · subst hj
        rw [if_pos rfl, if_pos (by omega)]
      · rw [if_neg hj, if_neg (by omega)]

/-- A pixel outside every row segment of the row fill loop is unchanged. -/
theorem fillRows_outside (c : Pixel) (hh : Nat) : ∀ (m : Mem) (base stride w j : Nat),
    (∀ r, r < hh → ¬(base + r * stride ≤ j ∧ j < base + r * stride + w)) →
    fillRows m c base stride w hh j = m j := by
  induction hh with
  | zero => intro m base stride w j hout; rfl
  | succ k ih =>
    intro m base stride w j hout
    rw [fillRows, ih (fillRun m c base w) (base + stride) stride w j]
    · rw [fillRun_spec]
      have h0 := hout 0 (by omega)
      rw [if_neg (by omega)]
    · intro r hr
      have hnext := hout (r + 1) (by omega)
      have hmul : (r + 1) * stride = r * stride + stride := Nat.succ_mul r stride
      intro hcontra
      exact hnext (by omega)

/-- C1 (code bug): ClearBuffer on an 80x60 buffer does not overwrite pixel
(70,0), because the source passes buffer->height, buffer->width into the
(right, bottom) parameters of FillRectOpaque in that order, so the fill is
clipped to a 60x60 square. -/
theorem ClearBuffer_misses_pixel :
    GetPixel (ClearBuffer zeroBuf80x60 1) 70 0 = 0 ∧
    zeroBuf80x60.width = 80 ∧ zeroBuf80x60.height = 60 ∧ (0 : Pixel) ≠ 1 := by
  refine ⟨?_, rfl, rfl, by decide⟩
  have hbuf : ClearBuffer zeroBuf80x60 1 =
      { zeroBuf80x60 with mem := fillRows zeroBuf80x60.mem 1 0 80 60 60 } := rfl
  rw [hbuf]
  have hget : GetPixel { zeroBuf80x60 with mem := fillRows zeroBuf80x60.mem 1 0 80 60 60 } 70 0 =
      fillRows zeroBuf80x60.mem 1 0 80 60 60 70 := by
    unfold GetPixel
    rw [if_neg (by decide)]
    norm_num
    rfl
  rw [hget]
  rw [fillRows_outside 1 60 zeroBuf80x60.mem 0 80 60 70 (by intro r hr; omega)]
  rfl

/-- C2 (code bug): FillRectOpaque with left = top = -10, right = bottom = 50
on an 80x60 buffer writes nothing at all: the screen test compares the
negative top (and left) against the uint32_t extent, which converts it to a
huge unsigned value and fails the test, so the claimed clipped fill of
[0,50)x[0,50) never happens. -/
theorem FillRectOpaque_rejects_negative_origin :
    FillRectOpaque zeroBuf80x60 4294901760 (-10) (-10) 50 50 = zeroBuf80x60 ∧
    GetPixel zeroBuf80x60 0 0 ≠ 4294901760 :=
  ⟨rfl, by decide⟩

/-- C4 (code bug): DrawVertLine with y1 = -3, y2 = 5, x = 2 on an 8x6 buffer
draws nothing: y1 < height is compared as unsigned without the cast that
DrawHorzLine applies to the matching x1 test, so negative y1 fails the screen
test instead of being clipped to 0. -/
theorem DrawVertLine_rejects_negative_y1 :
    DrawVertLine zeroBuf8x6 4294901760 (-3) 5 2 = zeroBuf8x6 ∧
    GetPixel zeroBuf8x6 2 0 ≠ LSCompositePixels 4294901760 0 :=
  ⟨rfl, by decide⟩

/-- C3 (code bug): BlitGraphBuffer at offset (-1,0) of a 2x2 source into a
4x4 destination copies nothing — the initial rejection test compares the
negative offset against the uint32_t destination width, converting it to a
huge unsigned value — while BlitGraphBufferComposite at the same offset does
composite the overlapping column (destination pixel (0,0) becomes 2, the
composite of source pixel (1,0) = 0xFF000002 over 0). -/
theorem BlitGraphBuffer_rejects_negative_offset :
    BlitGraphBuffer srcBuf2x2 dstBuf4x4 (-1) 0 = dstBuf4x4 ∧
    (BlitGraphBufferComposite srcBuf2x2 dstBuf4x4 (-1) 0).mem 0 = 2 ∧
    dstBuf4x4.mem 0 = 0 :=
  ⟨rfl, by decide, rfl⟩

/-- Coordinate transform of LSDrawLineCB: maps the internal Bresenham point
back to screen coordinates according to the slope case (0 standard,
1 backwards, 2 big slope, 3 big slope and backwards). -/
def lineTransform (slopeCase : Nat) (curX curY : Int) : Int × Int :=
  match slopeCase with
  | 0 => (curX, curY)
  | 1 => (-curX, curY)
  | 2 => (curY, curX)
  | _ => (curY, -curX)

/-- Loop of LSDrawLineCB.  Each iteration transforms the current point,
returns if the major-axis coordinate reached the stop value, plots the pixel
if it lies inside the buffer (the clip compares C long values, so signed),
then advances with the Bresenham decision variable.  The loop increments
curX by one each iteration and stops as soon as curX >= stopX, so fuel
(stopX - curX).toNat + 1 makes the recursion run exactly like the while. -/
def lineLoop (compositeFunc : Pixel → Pixel → Pixel) (color : Pixel)
    (width height rowPixels : Nat) (startY stopY stopX dy2 dyMinusDx2 : Int)
    (slopeCase : Nat) (m : Mem) (curX curY pref : Int) : Nat → Mem
  | 0 => m
  | fuel + 1 =>
    let out := lineTransform slopeCase curX curY
    if curX ≥ stopX then m
    else
      let idx := rowPixels * out.2.toNat + out.1.toNat
      let m1 := if out.1 < (width : Int) ∧ out.2 < (height : Int) ∧
          0 ≤ out.1 ∧ 0 ≤ out.2 then
        writePix m idx (compositeFunc color (m idx))
      else m
      if pref < 0 then
        lineLoop compositeFunc color width height rowPixels startY stopY stopX
          dy2 dyMinusDx2 slopeCase m1 (curX + 1) curY (pref + dy2) fuel
      else
        lineLoop compositeFunc color width height rowPixels startY stopY stopX
          dy2 dyMinusDx2 slopeCase m1 (curX + 1)
          (if startY < stopY then curY + 1 else curY - 1) (pref + dyMinusDx2) fuel

/-- LSDrawLineCB from finch.c: classifies the line into one of four cases by
swapping x/y when |dy| > |dx| and negating x when the (possibly swapped)
start x exceeds the stop x, then runs the Bresenham loop.  All internal
variables are C long, hence unbounded Int here. -/
def LSDrawLineCB (buf : GraphicsBuffer) (color : Pixel)
    (compositeFunc : Pixel → Pixel → Pixel) (x1 y1 x2 y2 : Int) : GraphicsBuffer :=
  let absDx0 := if x1 - x2 < 0 then -(x1 - x2) else x1 - x2
  let absDy0 := if y1 - y2 < 0 then -(y1 - y2) else y1 - y2
  let big := absDy0 > absDx0
  let startX := if big then y1 else x1
  let startY := if big then x1 else y1
  let stopX := if big then y2 else x2
  let stopY := if big then x2 else y2
  let absDx := if big then absDy0 else absDx0
  let absDy := if big then absDx0 else absDy0
  let back := startX > stopX
  let slopeCase := (if big then 2 else 0) + (if back then 1 else 0)
  let startX2 := if back then -startX else startX
  let stopX2 := if back then -stopX else stopX
  let dy2 := absDy * 2
  let dyMinusDx2 := 2 * (absDy - absDx)
  let pref := dy2 - absDx
  let fuel := (stopX2 - startX2).toNat + 1
  { buf with
    mem := lineLoop compositeFunc color buf.width buf.height buf.rowPixels
      startY stopY stopX2 dy2 dyMinusDx2 slopeCase buf.mem startX2 startY pref fuel }

/-- DrawLine from finch.c: Bresenham with the opaque combine function. -/
def DrawLine (buf : GraphicsBuffer) (color : Pixel) (x1 y1 x2 y2 : Int) :
    GraphicsBuffer :=
  LSDrawLineCB buf color LSCompositePixelsOpaque x1 y1 x2 y2

/-- DrawLineComposite from finch.c: Bresenham with alpha compositing. -/
def DrawLineComposite (buf : GraphicsBuffer) (color : Pixel) (x1 y1 x2 y2 : Int) :
    GraphicsBuffer :=
  LSDrawLineCB buf color LSCompositePixels x1 y1 x2 y2

/-- An 80x60 buffer previously filled with opaque black. -/
def blackBuf80x60 : GraphicsBuffer := ⟨80, 60, 80, fun _ => 4278190080⟩

/-- C10: on an 80x60 buffer filled with opaque black, DrawLine with opaque
red from (10,10) to (50,50) sets pixel (30,30) to opaque red: the line lies
on the diagonal x = y and DrawLine overwrites (no blending). -/
theorem DrawLine_diagonal_pixel :
    GetPixel (DrawLine blackBuf80x60 4294901760 10 10 50 50) 30 30 = 4294901760 := by
  decide
